import Mathlib

/-!
Shallow embedding of `gitlab_find.py` (GitLab group search tool) and proofs
of the behavioural claims about it.

The script's externally visible behaviour is driven by four fallible
provider operations (page listing, get-project, get-branch, blob search),
each wrapped in a tenacity `@retry(stop=stop_after_attempt(5), ...)`
decorator.  Tenacity's default is `reraise=False`: after the fifth failed
attempt it raises its own `RetryError`, not the exception raised by the
last attempt.  The embedding models this faithfully: `retryCall` swallows
the per-attempt error kinds and, on exhaustion, surfaces the distinct
`Err.retryError` kind.

Exceptions are modelled by the `Err` kind that the `except` clauses of the
script distinguish; network responses are modelled as oracles indexed by
attempt number (and page number for the paginated lister), so every
theorem quantifies over all possible provider behaviours.
-/

namespace GitlabFind

/-- Exception kinds distinguished by the script's `except` clauses:
`notFound` is `gitlab.exceptions.GitlabGetError` (the "not found" kind),
`retryError` is tenacity's `RetryError` (raised after five failed
attempts, since the decorators keep the default `reraise=False`), and
`generic` stands for every other `Exception`. -/
inductive Err
  | notFound
  | retryError
  | generic
deriving DecidableEq, Repr

/-- A resolved branch object; the script only reads its `name` field. -/
structure Branch where
  name : String
deriving DecidableEq, Repr

/-- One entry of the list returned by `project.search('blobs', ...)`: a
dict whose `filename` and `data` keys are read by the script.  A field
holds `Except.error ()` when the dict access would raise (a `KeyError` or
similar generic exception), `Except.ok s` when it yields the string `s`. -/
structure RawMatch where
  filename : Except Unit String
  data : Except Unit String
deriving Repr

/-- A project record as the worker receives it (from the projects CSV):
an id and a name. -/
structure ProjectRec where
  id : String
  name : String
deriving DecidableEq, Repr

/-- A report row: a list of CSV fields. -/
abbrev Row := List String

/-- The provider-side behaviour seen by one worker, as oracles indexed by
the attempt number (1-based): `getProject` models `gl.projects.get`,
`getBranch` models `project.branches.get('master')`, and `searchBlobs`
models `project.search('blobs', term, ref=..., get_all=True)` for a given
search term. -/
structure Env where
  getProject : Nat → Except Err Unit
  getBranch : Nat → Except Err Branch
  searchBlobs : String → Nat → Except Err (List RawMatch)

/-- Attempts `n` more calls of `f` starting at attempt number `attempt`;
the first success wins, and exhaustion yields tenacity's `RetryError`
(default `reraise=False`: the last attempt's own error kind is *not*
re-raised). -/
def retryAux (f : Nat → Except Err α) : Nat → Nat → Except Err α
  | 0, _ => .error .retryError
  | n + 1, attempt =>
    match f attempt with
    | .ok a => .ok a
    | .error _ => retryAux f n (attempt + 1)

/-- `@retry(stop=stop_after_attempt(5), ...)` applied to the oracle `f`:
up to five attempts, numbered from 1. -/
def retryCall (f : Nat → Except Err α) : Except Err α :=
  retryAux f 5 1

/-- The `for result in search_results:` loop body of `process_project`:
reads `result['filename']` and `result['data'].strip()` and appends a
Found row; a failing dict access raises a generic exception, escaping the
loop with the rows accumulated so far.  Returns the accumulated rows and
the escaping exception, if any. -/
def processMatches (pname bname : String) : List RawMatch → List Row × Option Err
  | [] => ([], none)
  | m :: rest =>
    match m.filename with
    | .error _ => ([], some .generic)
    | .ok fn =>
      match m.data with
      | .error _ => ([], some .generic)
      | .ok d =>
        let (rows, e) := processMatches pname bname rest
        ([pname, bname, fn, d.trim, "Found"] :: rows, e)

/-- The `try:` block of `process_project` covering branch resolution, the
blob search and match processing: returns the rows appended to `results`
inside the block together with the exception escaping it, if any. -/
def tryBody (pname search_phrase : String) (env : Env) : List Row × Option Err :=
  match retryCall env.getBranch with
  | .error e => ([], some e)
  | .ok branch =>
    match retryCall (env.searchBlobs search_phrase) with
    | .error e => ([], some e)
    | .ok search_results =>
      if search_results.isEmpty then
        ([[pname, branch.name, "", "", "Not Found"]], none)
      else
        processMatches pname branch.name search_results

/-- `process_project(project, search_phrase, gl)`: fetch the project
object (failure after retries yields zero rows), run the `try:` block,
then apply its two handlers: `except gitlab.exceptions.GitlabGetError`
appends the Branch-Missing row, the final `except Exception` swallows
everything else, and either way the accumulated rows are returned. -/
def process_project (project : ProjectRec) (search_phrase : String) (env : Env) : List Row :=
  match retryCall env.getProject with
  | .error _ => []
  | .ok _ =>
    let (rows, exc) := tryBody project.name search_phrase env
    match exc with
    | none => rows
    | some .notFound => rows ++ [[project.name, "master", "", "", "Master branch not found"]]
    | some _ => rows

/-- The provider's response to one listing-page request: a JSON array of
project records, or a raised `requests` exception. -/
inductive PageResp
  | ok (projects : List ProjectRec)
  | err
deriving DecidableEq, Repr

/-- One pass of the `while True:` pagination loop of `fetch_projects`,
starting at `page` with accumulator `acc`, against the page oracle `net`.
Returns the pages requested (in order) and the outcome: `some (.ok l)`
when an empty page ended the loop with inventory `l`, `some (.error ())`
when a page request raised, and `none` when the fuel ran out before the
loop terminated. -/
def fetchAttempt (net : Nat → PageResp) : Nat → Nat → List ProjectRec →
    List Nat × Option (Except Unit (List ProjectRec))
  | 0, _, _ => ([], none)
  | fuel + 1, page, acc =>
    match net page with
    | .err => ([page], some (.error ()))
    | .ok ps =>
      if ps.isEmpty then
        ([page], some (.ok acc))
      else
        let (tr, out) := fetchAttempt net fuel (page + 1) (acc ++ ps)
        (page :: tr, out)

/-- The tenacity retry wrapper around the whole of `fetch_projects`: `n`
remaining attempts starting at attempt number `attempt`; each attempt
re-runs the pagination loop from page 1 with a fresh empty accumulator.
Returns the full trace of `(attempt, page)` requests and the final
outcome (`some (.error ())` both for exhaustion — tenacity's fatal
`RetryError` — and, transiently, for a failed pass). -/
def fetchRetry (net : Nat → Nat → PageResp) (fuel : Nat) :
    Nat → Nat → List (Nat × Nat) × Option (Except Unit (List ProjectRec))
  | 0, _ => ([], some (.error ()))
  | n + 1, attempt =>
    match fetchAttempt (net attempt) fuel 1 [] with
    | (tr, some (.ok ps)) => (tr.map (fun p => (attempt, p)), some (.ok ps))
    | (tr, some (.error _)) =>
      let (tr2, out) := fetchRetry net fuel n (attempt + 1)
      (tr.map (fun p => (attempt, p)) ++ tr2, out)
    | (tr, none) => (tr.map (fun p => (attempt, p)), none)

/-- `fetch_projects(token, group_path, projects_json_file)` as observed
through the network: the trace of page requests it issues and the
inventory it ends with (`some (.error ())` meaning the fatal listing
failure after five failed passes). -/
def fetch_projects (net : Nat → Nat → PageResp) (fuel : Nat) :
    List (Nat × Nat) × Option (Except Unit (List ProjectRec)) :=
  fetchRetry net fuel 5 1

/-- Python's `s.rsplit('.', 1)` on a list of characters: splits at the
*last* dot, returning the parts before and after it, or `none` when the
string holds no dot (in which case the script's `[1]` index raises an
`IndexError`). -/
def rsplitDotAux : List Char → Option (List Char × List Char)
  | [] => none
  | c :: cs =>
    match rsplitDotAux cs with
    | some (b, a) => some (c :: b, a)
    | none => if c = '.' then some ([], cs) else none

/-- `f"{name.rsplit('.', 1)[0]}.{timestamp}.{name.rsplit('.', 1)[1]}"`:
inserts the timestamp before the extension; `none` models the unhandled
`IndexError` when `name` holds no dot. -/
def timestampName (name ts : String) : Option String :=
  match rsplitDotAux name.toList with
  | none => none
  | some (b, a) => some (String.mk b ++ "." ++ ts ++ "." ++ String.mk a)

/-- The header row written to the report file before anything else. -/
def headerRow : Row :=
  ["Project", "Branch", "File", "Snippet", "Status"]

/-- The `ThreadPoolExecutor` fan-out/fan-in of `main`: each project's
rows are produced by `process_project` against that project's provider
environment, and `results.extend(...)` appends each completed project's
whole batch, in completion order, from the single coordinating thread.
`order` is the completion order of the futures. -/
def coordinate (order : List ProjectRec) (search_phrase : String)
    (envOf : ProjectRec → Env) : List Row :=
  (order.map (fun p => process_project p search_phrase (envOf p))).flatten

/-- The three CLI-supplied output filenames and the run-start timestamp. -/
structure RunConfig where
  output_file : String
  projects_json_file : String
  projects_csv_file : String
  timestamp : String

/-- The output artifacts of one run: the report file's rows, the project
inventory JSON (if it was written), and the projects handed to workers in
completion order. -/
structure Artifacts where
  report : List Row
  inventory : Option (List ProjectRec)
  searched : List ProjectRec
deriving Repr

/-- `main(...)`: timestamp the three filenames (an `IndexError` in any of
the three `rsplit` lines aborts before any file is touched — modelled as
`none`), write the header row, fetch the inventory (a fatal listing
failure ends the run with just the header written), then run the workers
and append their rows in completion order.  `sched` picks the futures'
completion order; `none` is also returned when the pagination fuel runs
out (the loop did not terminate within `fuel` pages). -/
def mainModel (cfg : RunConfig) (net : Nat → Nat → PageResp) (fuel : Nat)
    (search_phrase : String) (envOf : ProjectRec → Env)
    (sched : List ProjectRec → List ProjectRec) : Option Artifacts :=
  match timestampName cfg.output_file cfg.timestamp,
      timestampName cfg.projects_json_file cfg.timestamp,
      timestampName cfg.projects_csv_file cfg.timestamp with
  | some _, some _, some _ =>
    match (fetch_projects net fuel).2 with
    | some (.ok projs) =>
      let order := sched projs
      some ⟨headerRow :: coordinate order search_phrase envOf, some projs, order⟩
    | some (.error _) => some ⟨[headerRow], none, []⟩
    | none => none
  | _, _, _ => none

/-- The string held by a successful field access (dummy on failure). -/
def okD : Except Unit String → String
  | .ok s => s
  | .error _ => ""

/-! ### Helper lemmas about the worker -/

theorem processMatches_shape (ms : List RawMatch) (n b : String) :
    ∀ row ∈ (processMatches n b ms).1, ∃ f s, row = [n, b, f, s, "Found"] := by
  induction ms with
  | nil => intro row hrow; simp [processMatches] at hrow
  | cons m rest ih =>
    intro row hrow
    simp only [processMatches] at hrow
    cases hf : m.filename with
    | error e => rw [hf] at hrow; simp at hrow
    | ok fn =>
      cases hd : m.data with
      | error e => rw [hf, hd] at hrow; simp at hrow
      | ok d =>
        rw [hf, hd] at hrow
        simp only [List.mem_cons] at hrow
        rcases hrow with hrow | hrow
        · exact ⟨fn, d.trim, hrow⟩
        · exact ih row hrow

theorem processMatches_ok (ms : List RawMatch) (n b : String)
    (hok : ∀ m ∈ ms, (∃ fn, m.filename = Except.ok fn) ∧ ∃ d, m.data = Except.ok d) :
    processMatches n b ms
      = (ms.map (fun m => [n, b, okD m.filename, (okD m.data).trim, "Found"]), none) := by
  induction ms with
  | nil => simp [processMatches]
  | cons m rest ih =>
    obtain ⟨⟨fn, hfn⟩, d, hd⟩ := hok m (List.mem_cons_self m rest)
    have hrest := ih (fun m' hm' => hok m' (List.mem_cons_of_mem m hm'))
    simp only [processMatches, hfn, hd, hrest, List.map_cons, okD]

theorem tryBody_shape (pname phrase : String) (env : Env) :
    ∀ row ∈ (tryBody pname phrase env).1,
      (∃ b f s, row = [pname, b, f, s, "Found"]) ∨
      ∃ b, row = [pname, b, "", "", "Not Found"] := by
  intro row hrow
  unfold tryBody at hrow
  cases hbr : retryCall env.getBranch with
  | error e => simp only [hbr] at hrow; simp at hrow
  | ok branch =>
    simp only [hbr] at hrow
    cases hse : retryCall (env.searchBlobs phrase) with
    | error e => simp only [hse] at hrow; simp at hrow
    | ok rs =>
      simp only [hse] at hrow
      by_cases hempty : rs.isEmpty
      · rw [if_pos hempty] at hrow
        simp only [List.mem_singleton] at hrow
        exact Or.inr ⟨branch.name, hrow⟩
      · rw [if_neg hempty] at hrow
        obtain ⟨f, s, hfs⟩ := processMatches_shape rs pname branch.name row hrow
        exact Or.inl ⟨branch.name, f, s, hfs⟩

/-! ### Concrete sample inputs used by witnesses and counterexamples -/

/-- A sample project record. -/
def pC1 : ProjectRec := ⟨"3", "C"⟩

/-- A provider where the project object resolves but every attempt to
resolve the `master` branch raises the "not found" kind of error. -/
def envC1 : Env :=
  ⟨fun _ => .ok (), fun _ => .error .notFound, fun _ _ => .ok []⟩

/-! ### C1 -/

/-- C1: the claim says a project whose branch resolution fails with the
"not found" error kind yields exactly one Branch-Missing row.  On the
code this is false: the tenacity decorator on `get_branch` keeps its
default `reraise=False`, so after five attempts that all raise the
"not found" kind it raises `RetryError`, which the
`except GitlabGetError` handler does not match; the generic
`except Exception` handler swallows it and the worker returns zero rows.
Here: every branch attempt fails with the "not found" kind, the retry
wrapper surfaces `RetryError` instead, and `process_project` emits no
row at all — in particular no Branch-Missing row. -/
theorem c1_branch_notFound_swallowed :
    (∀ a, envC1.getBranch a = Except.error Err.notFound) ∧
    retryCall envC1.getBranch = Except.error Err.retryError ∧
    process_project pC1 "needle" envC1 = [] :=
  ⟨fun _ => rfl, rfl, rfl⟩

/-! ### C2 -/

/-- C2: if the project object resolves and the `try:` block covering
branch resolution, the blob search and match processing escapes with an
exception that is not the "not found" kind, then `process_project`
returns exactly the rows the block had accumulated (possibly zero): the
handlers append nothing, and the worker returns normally instead of
propagating. -/
theorem c2_generic_error_returns_accumulated (p : ProjectRec) (phrase : String)
    (env : Env) (rows : List Row) (e : Err)
    (hproj : retryCall env.getProject = Except.ok ())
    (htry : tryBody p.name phrase env = (rows, some e))
    (hne : e ≠ Err.notFound) :
    process_project p phrase env = rows := by
  unfold process_project
  rw [hproj]
  simp only [htry]

/-- A project used by the C2 witness. -/
def pC2 : ProjectRec := ⟨"2", "B"⟩

/-- A provider for the C2 witness: branch resolves, the search returns
two matches, and reading the second match's `filename` key raises a
generic exception mid-loop, after one Found row was accumulated. -/
def envC2 : Env :=
  ⟨fun _ => .ok (), fun _ => .ok ⟨"master"⟩,
   fun _ _ => .ok [⟨.ok "f.txt", .ok " s "⟩, ⟨.error (), .ok "y"⟩]⟩

/-- C2 witness: at `envC2` the generic mid-loop failure makes the worker
return exactly the single already-accumulated Found row. -/
theorem c2_witness :
    process_project pC2 "t" envC2 = [["B", "master", "f.txt", " s ".trim, "Found"]] :=
  c2_generic_error_returns_accumulated pC2 "t" envC2
    [["B", "master", "f.txt", " s ".trim, "Found"]] Err.generic rfl rfl
    (by decide)

/-! ### C5 -/

/-- A project used by the C5 theorems. -/
def pC5 : ProjectRec := ⟨"1", "A"⟩

/-- A provider for the C5 counterexample: branch resolves and the search
returns one error-free match whose `filename` value is the empty
string. -/
def envC5 : Env :=
  ⟨fun _ => .ok (), fun _ => .ok ⟨"master"⟩,
   fun _ _ => .ok [⟨.ok "", .ok " x "⟩]⟩

/-- C5 counterexample: the claim promises a non-empty file path in every
Found row.  At `envC5` the branch resolves and the search returns
exactly one match without error, yet the single Found row carries the
empty string in its file field, because the code copies the provider's
`filename` value verbatim. -/
theorem c5_counterexample :
    retryCall envC5.getBranch = Except.ok ⟨"master"⟩ ∧
    retryCall (envC5.searchBlobs "t") = Except.ok [⟨Except.ok "", Except.ok " x "⟩] ∧
    process_project pC5 "t" envC5 = [["A", "master", "", " x ".trim, "Found"]] :=
  ⟨rfl, rfl, rfl⟩

/-- C5 (amended): for every project whose branch resolves and whose
search returns K ≥ 1 matches whose field accesses all succeed,
`process_project` returns exactly K rows, one per match, each of the
shape [project name, resolved branch name, the match's file path, the
match's whitespace-trimmed snippet, "Found"]; in particular no
Not-Found row is emitted, and the file path is non-empty exactly when
the match's file path is. -/
theorem c5_found_rows (p : ProjectRec) (phrase : String) (env : Env)
    (branch : Branch) (ms : List RawMatch)
    (hproj : retryCall env.getProject = Except.ok ())
    (hbr : retryCall env.getBranch = Except.ok branch)
    (hse : retryCall (env.searchBlobs phrase) = Except.ok ms)
    (hne : ms ≠ [])
    (hok : ∀ m ∈ ms, (∃ fn, m.filename = Except.ok fn) ∧ ∃ d, m.data = Except.ok d) :
    process_project p phrase env
        = ms.map (fun m => [p.name, branch.name, okD m.filename, (okD m.data).trim, "Found"]) ∧
    (process_project p phrase env).length = ms.length := by
  have hempty : ms.isEmpty = false := by
    cases ms with
    | nil => exact absurd rfl hne
    | cons m rest => rfl
  have hbody : tryBody p.name phrase env
      = (ms.map (fun m => [p.name, branch.name, okD m.filename, (okD m.data).trim, "Found"]),
         none) := by
    unfold tryBody
    rw [hbr, hse]
    simp only [hempty, Bool.false_eq_true, if_false]
    exact processMatches_ok ms p.name branch.name hok
  have hmain : process_project p phrase env
      = ms.map (fun m => [p.name, branch.name, okD m.filename, (okD m.data).trim, "Found"]) := by
    unfold process_project
    rw [hproj]
    simp only [hbody]
  exact ⟨hmain, by rw [hmain, List.length_map]⟩

/-- A provider for the C5 witness: branch resolves and the search
returns one error-free match with file path `f.txt`. -/
def envC5w : Env :=
  ⟨fun _ => .ok (), fun _ => .ok ⟨"master"⟩,
   fun _ _ => .ok [⟨.ok "f.txt", .ok " x "⟩]⟩

/-- C5 witness: the amended theorem applied at `envC5w`. -/
theorem c5_witness :
    process_project pC5 "t" envC5w
        = ([⟨Except.ok "f.txt", Except.ok " x "⟩] : List RawMatch).map
            (fun m => ["A", "master", okD m.filename, (okD m.data).trim, "Found"]) ∧
    (process_project pC5 "t" envC5w).length = 1 :=
  c5_found_rows pC5 "t" envC5w ⟨"master"⟩ [⟨Except.ok "f.txt", Except.ok " x "⟩]
    rfl rfl rfl (List.cons_ne_nil _ _)
    (by
      intro m hm
      rw [List.mem_singleton] at hm
      subst hm
      exact ⟨⟨"f.txt", rfl⟩, " x ", rfl⟩)

/-! ### C6 -/

/-- C6: for every project whose branch resolves and whose search
completes with zero matches, `process_project` returns exactly one row:
[project name, resolved branch name, "", "", "Not Found"]. -/
theorem c6_not_found_row (p : ProjectRec) (phrase : String) (env : Env)
    (branch : Branch)
    (hproj : retryCall env.getProject = Except.ok ())
    (hbr : retryCall env.getBranch = Except.ok branch)
    (hse : retryCall (env.searchBlobs phrase) = Except.ok []) :
    process_project p phrase env = [[p.name, branch.name, "", "", "Not Found"]] := by
  have hbody : tryBody p.name phrase env
      = ([[p.name, branch.name, "", "", "Not Found"]], none) := by
    unfold tryBody
    rw [hbr, hse]
    rfl
  unfold process_project
  rw [hproj]
  simp only [hbody]

/-- A project used by the C6 witness. -/
def pC6 : ProjectRec := ⟨"2", "B"⟩

/-- A provider for the C6 witness: branch resolves, search finds
nothing. -/
def envC6 : Env :=
  ⟨fun _ => .ok (), fun _ => .ok ⟨"master"⟩, fun _ _ => .ok []⟩

/-- C6 witness: the theorem applied at `envC6`. -/
theorem c6_witness :
    process_project pC6 "t" envC6 = [["B", "master", "", "", "Not Found"]] :=
  c6_not_found_row pC6 "t" envC6 ⟨"master"⟩ rfl rfl rfl

/-! ### C8 -/

/-- C8: every row `process_project` can produce has exactly five fields
and is of one of the three shapes — a Found row, a Not-Found row with
empty file/snippet fields, or the Branch-Missing row with empty
file/snippet fields; absent fields are the empty string, never
omitted. -/
theorem c8_row_schema (p : ProjectRec) (phrase : String) (env : Env) :
    ∀ row ∈ process_project p phrase env,
      row.length = 5 ∧
      ((∃ b f s, row = [p.name, b, f, s, "Found"]) ∨
       (∃ b, row = [p.name, b, "", "", "Not Found"]) ∨
       row = [p.name, "master", "", "", "Master branch not found"]) := by
  intro row hrow
  unfold process_project at hrow
  cases hproj : retryCall env.getProject with
  | error e => rw [hproj] at hrow; simp at hrow
  | ok u =>
    rw [hproj] at hrow
    have hshape : row ∈ (tryBody p.name phrase env).1 →
        (∃ b f s, row = [p.name, b, f, s, "Found"]) ∨
        (∃ b, row = [p.name, b, "", "", "Not Found"]) ∨
        row = [p.name, "master", "", "", "Master branch not found"] := by
      intro hmem
      rcases tryBody_shape p.name phrase env row hmem with h | h
      · exact Or.inl h
      · exact Or.inr (Or.inl h)
    have hlen : ∀ hshapes :
        (∃ b f s, row = [p.name, b, f, s, "Found"]) ∨
        (∃ b, row = [p.name, b, "", "", "Not Found"]) ∨
        row = [p.name, "master", "", "", "Master branch not found"],
        row.length = 5 := by
      rintro (⟨b, f, s, rfl⟩ | ⟨b, rfl⟩ | rfl) <;> rfl
    rcases hexc : (tryBody p.name phrase env).2 with _ | e
    · have : row ∈ (tryBody p.name phrase env).1 := by
        rcases htb : tryBody p.name phrase env with ⟨rows, exc⟩
        rw [htb] at hexc hrow
        simp only at hexc
        subst hexc
        simpa using hrow
      have h := hshape this
      exact ⟨hlen h, h⟩
    · rcases htb : tryBody p.name phrase env with ⟨rows, exc⟩
      rw [htb] at hexc hrow
      simp only at hexc
      subst hexc
      cases e with
      | notFound =>
        simp only [List.mem_append, List.mem_singleton] at hrow
        rcases hrow with hrow | hrow
        · have h := hshape (by rw [htb]; exact hrow)
          exact ⟨hlen h, h⟩
        · subst hrow
          exact ⟨rfl, Or.inr (Or.inr rfl)⟩
      | retryError =>
        have h := hshape (by rw [htb]; exact hrow)
        exact ⟨hlen h, h⟩
      | generic =>
        have h := hshape (by rw [htb]; exact hrow)
        exact ⟨hlen h, h⟩

/-- A project used by the C8 witness. -/
def pC8 : ProjectRec := ⟨"8", "H"⟩

/-- A provider for the C8 witness: branch resolves, search finds
nothing, so the worker emits the Not-Found row. -/
def envC8 : Env :=
  ⟨fun _ => .ok (), fun _ => .ok ⟨"master"⟩, fun _ _ => .ok []⟩

/-- C8 witness: the schema theorem applied to the concrete row the
worker emits at `envC8`. -/
theorem c8_witness :
    (["H", "master", "", "", "Not Found"] : Row).length = 5 ∧
    ((∃ b f s, (["H", "master", "", "", "Not Found"] : Row) = ["H", b, f, s, "Found"]) ∨
     (∃ b, (["H", "master", "", "", "Not Found"] : Row) = ["H", b, "", "", "Not Found"]) ∨
     (["H", "master", "", "", "Not Found"] : Row)
        = ["H", "master", "", "", "Master branch not found"]) :=
  c8_row_schema pC8 "t" envC8 ["H", "master", "", "", "Not Found"] (by decide)

/-! ### Helper lemmas about the paginated lister -/

theorem fetchAttempt_trace_head (net : Nat → PageResp) (fuel page : Nat)
    (acc : List ProjectRec) (h : 0 < fuel) :
    ∃ t, (fetchAttempt net fuel page acc).1 = page :: t := by
  cases fuel with
  | zero => omega
  | succ n =>
    cases hnp : net page with
    | err => exact ⟨[], by simp [fetchAttempt, hnp]⟩
    | ok ps =>
      by_cases he : ps.isEmpty
      · exact ⟨[], by simp [fetchAttempt, hnp, he]⟩
      · exact ⟨(fetchAttempt net n (page + 1) (acc ++ ps)).1,
          by simp [fetchAttempt, hnp, he]⟩

theorem fetchRetry_fail_snd (net : Nat → Nat → PageResp) (fuel m n attempt : Nat)
    (hm : m = n + 1)
    (h : (fetchAttempt (net attempt) fuel 1 []).2 = some (Except.error ())) :
    (fetchRetry net fuel m attempt).2 = (fetchRetry net fuel n (attempt + 1)).2 := by
  subst hm
  rcases hfa : fetchAttempt (net attempt) fuel 1 [] with ⟨tr, out⟩
  rw [hfa] at h
  simp only at h
  subst h
  simp [fetchRetry, hfa]

theorem fetchAttempt_congr (fuel : Nat) :
    ∀ (page : Nat) (acc : List ProjectRec) (net net' : Nat → PageResp),
      (∀ p, page ≤ p → net p = net' p) →
      fetchAttempt net fuel page acc = fetchAttempt net' fuel page acc := by
  induction fuel with
  | zero => intros; rfl
  | succ n ih =>
    intro page acc net net' hagree
    have h1 : net page = net' page := hagree page (le_refl page)
    simp only [fetchAttempt, h1]
    cases hnp : net' page with
    | err => rfl
    | ok ps =>
      by_cases he : ps.isEmpty
      · simp [he]
      · simp only [he, Bool.false_eq_true, if_false]
        rw [ih (page + 1) (acc ++ ps) net net' (fun p hp => hagree p (by omega))]

/-- One-step unfolding of the pagination loop at a non-empty page. -/
theorem fetchAttempt_cons_step (net : Nat → PageResp) (fuel page : Nat)
    (acc ps : List ProjectRec)
    (hnet : net page = PageResp.ok ps) (hps : ps.isEmpty = false) :
    fetchAttempt net (fuel + 1) page acc
      = (page :: (fetchAttempt net fuel (page + 1) (acc ++ ps)).1,
         (fetchAttempt net fuel (page + 1) (acc ++ ps)).2) := by
  simp [fetchAttempt, hnet, hps]

/-- Splitting a shifted range of page numbers at its head. -/
theorem range_map_shift (k n : Nat) :
    (List.range (n + 1)).map (fun i => k + i)
      = k :: (List.range n).map (fun i => (k + 1) + i) := by
  rw [List.range_succ_eq_map, List.map_cons, List.map_map]
  simp only [Nat.add_zero]
  congr 1
  apply List.map_congr_left
  intro i hi
  simp only [Function.comp_apply]
  omega

theorem fetchAttempt_pages :
    ∀ (pages : List (List ProjectRec)) (page : Nat) (acc : List ProjectRec),
      1 ≤ page → (∀ pg ∈ pages, pg ≠ []) →
      fetchAttempt (fun p => PageResp.ok (pages.getD (p - page) []))
          (pages.length + 1) page acc
        = ((List.range (pages.length + 1)).map (fun i => page + i),
           some (Except.ok (acc ++ pages.flatten))) := by
  intro pages
  induction pages with
  | nil =>
    intro page acc hpage hne
    simp only [fetchAttempt, List.getD_nil, List.isEmpty_nil, if_true, List.length_nil,
      List.flatten_nil, List.append_nil, Nat.zero_add]
    rw [show List.range 1 = [0] from rfl]
    simp
  | cons pg rest ih =>
    intro page acc hpage hne
    have hpg : pg ≠ [] := hne pg (List.mem_cons_self pg rest)
    have hpgE : pg.isEmpty = false := by
      cases pg with
      | nil => exact absurd rfl hpg
      | cons a l => rfl
    have hcongr : fetchAttempt (fun p => PageResp.ok ((pg :: rest).getD (p - page) []))
          (rest.length + 1) (page + 1) (acc ++ pg)
        = fetchAttempt (fun p => PageResp.ok (rest.getD (p - (page + 1)) []))
          (rest.length + 1) (page + 1) (acc ++ pg) := by
      apply fetchAttempt_congr
      intro p hp
      have hsub : p - page = (p - (page + 1)) + 1 := by omega
      rw [hsub, List.getD_cons_succ]
    have hih := ih (page + 1) (acc ++ pg) (by omega)
      (fun pg' h' => hne pg' (List.mem_cons_of_mem pg h'))
    have hstep : fetchAttempt (fun p => PageResp.ok ((pg :: rest).getD (p - page) []))
          ((pg :: rest).length + 1) page acc
        = (page :: ((List.range (rest.length + 1)).map (fun i => (page + 1) + i)),
           some (Except.ok ((acc ++ pg) ++ rest.flatten))) := by
      have hfuel : (pg :: rest).length + 1 = (rest.length + 1) + 1 := by simp
      rw [hfuel]
      rw [fetchAttempt_cons_step _ (rest.length + 1) page acc pg
        (by simp [Nat.sub_self]) hpgE]
      rw [hcongr, hih]
    rw [hstep]
    simp only [Prod.mk.injEq]
    constructor
    · rw [show (pg :: rest).length + 1 = (rest.length + 1) + 1 from by simp,
        range_map_shift page (rest.length + 1)]
    · simp [List.flatten_cons, List.append_assoc]

/-- The length of the flattened inventory when every page holds exactly
100 projects. -/
theorem flatten_length_pages :
    ∀ (pages : List (List ProjectRec)), (∀ pg ∈ pages, pg.length = 100) →
      pages.flatten.length = 100 * pages.length := by
  intro pages
  induction pages with
  | nil => intro _; simp
  | cons pg rest ih =>
    intro h
    have h1 := h pg (List.mem_cons_self pg rest)
    have h2 := ih (fun pg' h' => h pg' (List.mem_cons_of_mem pg h'))
    simp only [List.flatten_cons, List.length_append, List.length_cons, h1, h2]
    omega

/-! ### C3 -/

/-- Two sample projects for the C3 counterexample. -/
def pC3a : ProjectRec := ⟨"1", "A"⟩

/-- Second sample project for the C3 counterexample. -/
def pC3b : ProjectRec := ⟨"2", "B"⟩

/-- A listing network for the C3 counterexample: on the first attempt
page 1 succeeds and page 2 raises; on every later attempt page 1 and
page 2 succeed and page 3 is empty.  Only page 2 ever fails, and only
transiently. -/
def netC3 : Nat → Nat → PageResp := fun attempt page =>
  if attempt = 1 then
    if page = 1 then .ok [pC3a] else .err
  else
    if page = 1 then .ok [pC3a] else if page = 2 then .ok [pC3b] else .ok []

/-- C3 counterexample: the claim says a transient failure on page N does
not cause pages 1..N-1 to be re-requested.  Against `netC3` only the
first request of page 2 fails, yet the full request trace is
[(1,1), (1,2), (2,1), (2,2), (2,3)]: page 1 is requested twice, because
the retry decorator wraps the whole of `fetch_projects` and restarts
the listing from page 1.  The run still ends with the full inventory. -/
theorem c3_counterexample :
    (fetch_projects netC3 4).1 = [(1, 1), (1, 2), (2, 1), (2, 2), (2, 3)] ∧
    netC3 1 1 = PageResp.ok [pC3a] ∧
    netC3 1 2 = PageResp.err ∧
    ((fetch_projects netC3 4).1.filter (fun q => q.2 == 1)).length = 2 ∧
    (fetch_projects netC3 4).2 = some (Except.ok [pC3a, pC3b]) :=
  ⟨by decide, rfl, rfl, by decide, rfl⟩

/-- C3 (amended): the retry wraps the entire listing function, not each
page request: every attempt of `fetch_projects` (re)starts its requests
at page 1, and when all five whole-listing passes fail the fatal
listing error propagates. -/
theorem c3_retry_wraps_whole_listing (net : Nat → Nat → PageResp) (fuel : Nat)
    (h : 0 < fuel) :
    (∀ n attempt, ∃ rest, (fetchRetry net fuel (n + 1) attempt).1 = (attempt, 1) :: rest) ∧
    ((∀ a, (fetchAttempt (net a) fuel 1 []).2 = some (Except.error ())) →
      (fetch_projects net fuel).2 = some (Except.error ())) := by
  constructor
  · intro n attempt
    obtain ⟨t, ht⟩ := fetchAttempt_trace_head (net attempt) fuel 1 [] h
    rcases hfa : fetchAttempt (net attempt) fuel 1 [] with ⟨tr, out⟩
    rw [hfa] at ht
    simp only at ht
    subst ht
    cases out with
    | none =>
      exact ⟨t.map (fun p => (attempt, p)), by simp [fetchRetry, hfa]⟩
    | some exc =>
      cases exc with
      | error u =>
        exact ⟨t.map (fun p => (attempt, p)) ++ (fetchRetry net fuel n (attempt + 1)).1,
          by simp [fetchRetry, hfa]⟩
      | ok ps =>
        exact ⟨t.map (fun p => (attempt, p)), by simp [fetchRetry, hfa]⟩
  · intro hall
    calc (fetch_projects net fuel).2
        = (fetchRetry net fuel 4 2).2 := fetchRetry_fail_snd net fuel 5 4 1 rfl (hall 1)
      _ = (fetchRetry net fuel 3 3).2 := fetchRetry_fail_snd net fuel 4 3 2 rfl (hall 2)
      _ = (fetchRetry net fuel 2 4).2 := fetchRetry_fail_snd net fuel 3 2 3 rfl (hall 3)
      _ = (fetchRetry net fuel 1 5).2 := fetchRetry_fail_snd net fuel 2 1 4 rfl (hall 4)
      _ = (fetchRetry net fuel 0 6).2 := fetchRetry_fail_snd net fuel 1 0 5 rfl (hall 5)
      _ = some (Except.error ()) := rfl

/-- A listing network where every page request raises. -/
def netC3f : Nat → Nat → PageResp := fun _ _ => .err

/-- C3 witness: the amended theorem applied to the always-failing
network with one unit of fuel. -/
theorem c3_witness :
    (∀ n attempt, ∃ rest, (fetchRetry netC3f 1 (n + 1) attempt).1 = (attempt, 1) :: rest) ∧
    ((∀ a, (fetchAttempt (netC3f a) 1 1 []).2 = some (Except.error ())) →
      (fetch_projects netC3f 1).2 = some (Except.error ())) :=
  c3_retry_wraps_whole_listing netC3f 1 (by decide)

/-! ### C4 -/

/-- The listing network induced by a fixed failure-free sequence of
pages: every attempt sees the same responses, page `p` (1-indexed)
returns the `p`-th element of `pages`, and every page beyond the end is
empty. -/
def pagesNet (pages : List (List ProjectRec)) : Nat → Nat → PageResp :=
  fun _ page => .ok (pages.getD (page - 1) [])

/-- C4: against a failure-free listing of N non-empty pages followed by
empty pages, `fetch_projects` requests exactly pages 1..N+1 of attempt 1
(N+1 requests, stopping at the first empty page), and collects exactly
the concatenation of the pages; when every page holds 100 projects the
inventory has exactly N×100 entries. -/
theorem c4_pagination (pages : List (List ProjectRec))
    (h : ∀ pg ∈ pages, pg.length = 100) :
    (fetch_projects (pagesNet pages) (pages.length + 1)).1
        = (List.range (pages.length + 1)).map (fun i => (1, 1 + i)) ∧
    (fetch_projects (pagesNet pages) (pages.length + 1)).2
        = some (Except.ok pages.flatten) ∧
    (fetch_projects (pagesNet pages) (pages.length + 1)).1.length = pages.length + 1 ∧
    pages.flatten.length = 100 * pages.length := by
  have hne : ∀ pg ∈ pages, pg ≠ [] := by
    intro pg hpg hnil
    have h100 := h pg hpg
    rw [hnil] at h100
    simp at h100
  have hfa : fetchAttempt (pagesNet pages 1) (pages.length + 1) 1 []
      = ((List.range (pages.length + 1)).map (fun i => 1 + i),
         some (Except.ok ([] ++ pages.flatten))) :=
    fetchAttempt_pages pages 1 [] (le_refl 1) hne
  have hmain : fetch_projects (pagesNet pages) (pages.length + 1)
      = (((List.range (pages.length + 1)).map (fun i => 1 + i)).map (fun p => (1, p)),
         some (Except.ok pages.flatten)) := by
    show fetchRetry (pagesNet pages) (pages.length + 1) (4 + 1) 1 = _
    simp only [fetchRetry, hfa, List.nil_append]
  refine ⟨?_, ?_, ?_, flatten_length_pages pages h⟩
  · rw [hmain]
    simp [List.map_map, Function.comp]
  · rw [hmain]
  · rw [hmain]
    simp

/-- A sample project for the C4 witness. -/
def pC4 : ProjectRec := ⟨"4", "D"⟩

/-- C4 witness: the pagination theorem applied to a single page of 100
projects (N = 1): two page requests, 100 projects collected. -/
theorem c4_witness :
    (fetch_projects (pagesNet [List.replicate 100 pC4]) 2).1
        = (List.range 2).map (fun i => (1, 1 + i)) ∧
    (fetch_projects (pagesNet [List.replicate 100 pC4]) 2).2
        = some (Except.ok ([List.replicate 100 pC4] : List (List ProjectRec)).flatten) ∧
    (fetch_projects (pagesNet [List.replicate 100 pC4]) 2).1.length = 2 ∧
    ([List.replicate 100 pC4] : List (List ProjectRec)).flatten.length = 100 * 1 :=
  c4_pagination [List.replicate 100 pC4] (by
    intro pg hpg
    rw [List.mem_singleton] at hpg
    subst hpg
    exact List.length_replicate 100 pC4)

/-! ### C9 -/

/-- Permuting the per-project batches permutes the concatenated rows. -/
theorem flatten_perm_of_perm {α : Type} {l1 l2 : List (List α)} (h : l1.Perm l2) :
    l1.flatten.Perm l2.flatten := by
  induction h with
  | nil => exact List.Perm.refl _
  | cons x h ih =>
    simp only [List.flatten_cons]
    exact ih.append_left x
  | swap x y l =>
    simp only [List.flatten_cons, ← List.append_assoc]
    exact List.perm_append_comm.append_right _
  | trans h1 h2 ih1 ih2 => exact ih1.trans ih2

/-- C9: for a fixed inventory and fixed per-project provider behaviour,
any two completion orders of the worker futures (in particular those
induced by pool sizes 1 and 10) yield the same multiset of rows — the
outputs are permutations of each other — and every project's rows appear
contiguously in the output, as one uninterrupted block. -/
theorem c9_pool_size_agnostic (inv order1 order2 : List ProjectRec) (phrase : String)
    (envOf : ProjectRec → Env)
    (h1 : order1.Perm inv) (h2 : order2.Perm inv) :
    (coordinate order1 phrase envOf).Perm (coordinate order2 phrase envOf) ∧
    ∀ p ∈ order1, ∃ pre post,
      coordinate order1 phrase envOf
        = pre ++ process_project p phrase (envOf p) ++ post := by
  constructor
  · exact flatten_perm_of_perm ((h1.trans h2.symm).map _)
  · intro p hp
    obtain ⟨s, t, hst⟩ := List.append_of_mem hp
    subst hst
    refine ⟨(s.map (fun q => process_project q phrase (envOf q))).flatten,
            (t.map (fun q => process_project q phrase (envOf q))).flatten, ?_⟩
    unfold coordinate
    rw [List.map_append, List.map_cons, List.flatten_append, List.flatten_cons,
      List.append_assoc]

/-- Sample projects and providers for the C9 witness. -/
def p9a : ProjectRec := ⟨"1", "A"⟩

/-- Second sample project for the C9 witness. -/
def p9b : ProjectRec := ⟨"2", "B"⟩

/-- Per-project providers for the C9 witness. -/
def envOf9 : ProjectRec → Env :=
  fun _ => ⟨fun _ => .ok (), fun _ => .ok ⟨"master"⟩, fun _ _ => .ok []⟩

/-- C9 witness: the theorem applied to the two completion orders of a
two-project inventory. -/
theorem c9_witness :
    (coordinate [p9a, p9b] "t" envOf9).Perm (coordinate [p9b, p9a] "t" envOf9) ∧
    ∀ p ∈ [p9a, p9b], ∃ pre post,
      coordinate [p9a, p9b] "t" envOf9 = pre ++ process_project p "t" (envOf9 p) ++ post :=
  c9_pool_size_agnostic [p9a, p9b] [p9a, p9b] [p9b, p9a] "t" envOf9
    (List.Perm.refl _) (List.Perm.swap p9a p9b [])

/-! ### C7 -/

/-- C7: when the three filenames timestamp successfully but the
inventory fetch fails fatally, the run's report holds exactly the header
row, the inventory artifact is never written, and no project is handed
to a worker. -/
theorem c7_fatal_listing_header_only (cfg : RunConfig) (net : Nat → Nat → PageResp)
    (fuel : Nat) (phrase : String) (envOf : ProjectRec → Env)
    (sched : List ProjectRec → List ProjectRec)
    (h1 : (timestampName cfg.output_file cfg.timestamp).isSome = true)
    (h2 : (timestampName cfg.projects_json_file cfg.timestamp).isSome = true)
    (h3 : (timestampName cfg.projects_csv_file cfg.timestamp).isSome = true)
    (hfail : (fetch_projects net fuel).2 = some (Except.error ())) :
    mainModel cfg net fuel phrase envOf sched = some ⟨[headerRow], none, []⟩ := by
  obtain ⟨x1, hx1⟩ := Option.isSome_iff_exists.mp h1
  obtain ⟨x2, hx2⟩ := Option.isSome_iff_exists.mp h2
  obtain ⟨x3, hx3⟩ := Option.isSome_iff_exists.mp h3
  unfold mainModel
  rw [hx1, hx2, hx3, hfail]

/-- A listing network for the C7 witness where every request raises. -/
def netC7 : Nat → Nat → PageResp := fun _ _ => .err

/-- Per-project providers for the C7 witness (never reached). -/
def envOf7 : ProjectRec → Env :=
  fun _ => ⟨fun _ => .ok (), fun _ => .ok ⟨"master"⟩, fun _ _ => .ok []⟩

/-- C7 witness: the theorem applied to the default filenames and an
always-failing listing network. -/
theorem c7_witness :
    mainModel ⟨"gitlab_search_results.csv", "projects.json", "projects.csv", "T"⟩
        netC7 1 "t" envOf7 id = some ⟨[headerRow], none, []⟩ :=
  c7_fatal_listing_header_only
    ⟨"gitlab_search_results.csv", "projects.json", "projects.csv", "T"⟩
    netC7 1 "t" envOf7 id rfl rfl rfl rfl

/-! ### C10 -/

/-- `rsplitDotAux` yields `none` exactly on dot-free inputs. -/
theorem rsplitDotAux_none_iff : ∀ l : List Char, rsplitDotAux l = none ↔ '.' ∉ l := by
  intro l
  induction l with
  | nil => simp [rsplitDotAux]
  | cons c cs ih =>
    cases h : rsplitDotAux cs with
    | some p =>
      rcases p with ⟨b, a⟩
      have hdot : '.' ∈ cs := by
        by_contra hn
        rw [ih.mpr hn] at h
        exact Option.noConfusion h
      simp [rsplitDotAux, h, List.mem_cons, hdot]
    | none =>
      have hn : '.' ∉ cs := ih.mp h
      by_cases hc : c = '.'
      · subst hc
        simp [rsplitDotAux, h, List.mem_cons]
      · simp only [rsplitDotAux, h, List.mem_cons]
        constructor
        · intro _ hor
          rcases hor with hor | hor
          · exact hc hor.symm
          · exact hn hor
        · intro _
          rw [if_neg hc]

/-- C10: if any of the three CLI output filenames holds no dot, the run
dies in the timestamping lines before producing any artifact (the
unhandled `IndexError`); and timestamping succeeds for every filename
holding at least one dot. -/
theorem c10_timestamping (cfg : RunConfig) (net : Nat → Nat → PageResp) (fuel : Nat)
    (phrase : String) (envOf : ProjectRec → Env)
    (sched : List ProjectRec → List ProjectRec)
    (h : '.' ∉ cfg.output_file.toList ∨ '.' ∉ cfg.projects_json_file.toList ∨
         '.' ∉ cfg.projects_csv_file.toList) :
    mainModel cfg net fuel phrase envOf sched = none ∧
    ∀ (s ts : String), '.' ∈ s.toList → (timestampName s ts).isSome = true := by
  have get_none : ∀ name : String, '.' ∉ name.toList →
      ∀ ts, timestampName name ts = none := by
    intro name hname ts
    unfold timestampName
    rw [(rsplitDotAux_none_iff name.toList).mpr hname]
  constructor
  · rcases h with h | h | h
    · unfold mainModel
      rw [get_none _ h cfg.timestamp]
    · unfold mainModel
      rw [get_none _ h cfg.timestamp]
      cases timestampName cfg.output_file cfg.timestamp <;>
        cases timestampName cfg.projects_csv_file cfg.timestamp <;> rfl
    · unfold mainModel
      rw [get_none _ h cfg.timestamp]
      cases timestampName cfg.output_file cfg.timestamp <;>
        cases timestampName cfg.projects_json_file cfg.timestamp <;> rfl
  · intro s ts hs
    unfold timestampName
    cases hr : rsplitDotAux s.toList with
    | none => exact absurd hs ((rsplitDotAux_none_iff s.toList).mp hr)
    | some p =>
      rcases p with ⟨b, a⟩
      rfl

/-- A config for the C10 witness whose report filename holds no dot. -/
def cfg10 : RunConfig := ⟨"outcsv", "projects.json", "projects.csv", "T"⟩

/-- A listing network for the C10 witness. -/
def net10 : Nat → Nat → PageResp := fun _ _ => .ok []

/-- Per-project providers for the C10 witness. -/
def envOf10 : ProjectRec → Env :=
  fun _ => ⟨fun _ => .ok (), fun _ => .ok ⟨"master"⟩, fun _ _ => .ok []⟩

/-- C10 witness: the theorem applied at `cfg10` (dot-free report name),
plus the success half evaluated at the default report filename. -/
theorem c10_witness :
    mainModel cfg10 net10 1 "t" envOf10 id = none ∧
    (timestampName "gitlab_search_results.csv" "T").isSome = true :=
  ⟨(c10_timestamping cfg10 net10 1 "t" envOf10 id (Or.inl (by decide))).1,
   (c10_timestamping cfg10 net10 1 "t" envOf10 id (Or.inl (by decide))).2
     "gitlab_search_results.csv" "T" (by decide)⟩

end GitlabFind
